import Mathlib

/-!
Shallow embedding of the action-injector dispatch core
(`tools/actioninjector.v2/internal/cmd/inject.go`) and proofs about it.

The embedding covers: the nonce cache (a `ttl.Cache` mapping address
strings to nonce values, here `Addr → Option Nat`), the nonce allocation
performed by `transferCaller` / `executionCaller` (a `Get` followed by a
separate `Set`), the synchronizer `syncNonces`, the pacing loop
`injectProcess`, the submission retry in `inject`, the receipt check in
`inject`, and the action-type dispatch `pickAction`.
-/

namespace Inject

/-- Account addresses are their encoded string form (`AddressKey.EncodedAddr`). -/
abbrev Addr := String

/-- The nonce cache `injectProcessor.nonces` (`ttl.Cache`): a map from
address to the next nonce value.  `none` models a key that is absent. -/
abbrev NonceCache := Addr → Option Nat

/-- `nonces.Set(a, v)`: store `v` under key `a`. -/
def cacheSet (c : NonceCache) (a : Addr) (v : Nat) : NonceCache :=
  fun x => if x = a then some v else c x

/-- The read half of the allocation in `transferCaller` / `executionCaller`
(inject.go lines 315-319 and 287-291):
`var nonce uint64; if val, ok := p.nonces.Get(addr); ok { nonce = val.(uint64) }`.
A missing key leaves `nonce` at its zero value. -/
def allocGet (c : NonceCache) (a : Addr) : Nat :=
  (c a).getD 0

/-- The write half of the allocation in `transferCaller` / `executionCaller`
(inject.go lines 320 and 292): `p.nonces.Set(addr, nonce+1)`. -/
def allocSet (c : NonceCache) (a : Addr) (nonce : Nat) : NonceCache :=
  cacheSet c a (nonce + 1)

/-- One full allocation as performed by a single caller that is not
interleaved with anything: the `Get` immediately followed by the `Set`.
Returns the nonce attached to the built action and the updated cache. -/
def allocate (c : NonceCache) (a : Addr) : Nat × NonceCache :=
  let nonce := allocGet c a
  (nonce, allocSet c a nonce)

/-- `syncNonces`'s per-address overwrite (inject.go line 195):
`p.nonces.Set(addr, resp.GetAccountMeta().GetPendingNonce())`. -/
def overwrite (c : NonceCache) (a : Addr) (v : Nat) : NonceCache :=
  cacheSet c a v

/-!
Interleaved execution of concurrent allocations.

Each caller of `transferCaller` / `executionCaller` executes two atomic
steps against the shared cache: first the `Get` (recording the value in
its local `nonce` variable), then the `Set` (writing `localNonce + 1`).
The cache itself (`ttl.Cache`) is safe per call, so each `Get` and each
`Set` is atomic, but nothing makes the pair atomic.  A schedule is a list
of caller indices; each entry advances that caller by one atomic step.
-/

/-- The state of one in-flight allocation: `pc = 0` before its `Get`,
`pc = 1` between `Get` and `Set`, `pc = 2` after its `Set`.  `localNonce`
is the caller's local `nonce` variable. -/
structure AllocCaller where
  pc : Nat
  localNonce : Nat
  deriving Repr, DecidableEq

/-- Advance one caller by one atomic step against the shared cache. -/
def allocStep (a : Addr) (cs : AllocCaller) (c : NonceCache) :
    AllocCaller × NonceCache :=
  if cs.pc = 0 then ({ pc := 1, localNonce := allocGet c a }, c)
  else if cs.pc = 1 then ({ cs with pc := 2 }, allocSet c a cs.localNonce)
  else (cs, c)

/-- Run a schedule: each list entry names the caller that performs its
next atomic step.  Out-of-range indices are ignored. -/
def runSchedule (a : Addr) :
    List Nat → List AllocCaller → NonceCache → List AllocCaller × NonceCache
  | [], css, c => (css, c)
  | i :: rest, css, c =>
    match css.get? i with
    | none => runSchedule a rest css c
    | some cs =>
      let s := allocStep a cs c
      runSchedule a rest (css.set i s.fst) s.snd

/-- A fully sequential schedule for `n` callers: caller 0 runs both its
steps, then caller 1, and so on. -/
def seqSchedule (n : Nat) : List Nat :=
  (List.range n).flatMap (fun i => [i, i])

/-- The interleaving used as the failing input for the atomicity claim:
both callers perform their `Get` before either performs its `Set`. -/
def racySchedule : List Nat := [0, 1, 0, 1]

/-- Initial cache for the concrete counterexample: address `A` cached at 5. -/
def c1Cache : NonceCache := cacheSet (fun _ => none) "A" 5

/-- The two concurrent callers of the counterexample, before their steps. -/
def c1Callers : List AllocCaller := [⟨0, 0⟩, ⟨0, 0⟩]

/-- Result of running the racy interleaving on the counterexample input. -/
def c1Result : List AllocCaller × NonceCache :=
  runSchedule "A" racySchedule c1Callers c1Cache

/-!
Initialization of the nonce cache (`randAccounts`, `loadAccounts`).
-/

/-- `randAccounts` (inject.go lines 108-121): for each freshly generated
account it performs `p.nonces.Set(a.Address().String(), 1)`.  `addrs` is
the list of generated addresses, in generation order. -/
def randAccountsInit (addrs : List Addr) (c : NonceCache) : NonceCache :=
  addrs.foldl (fun cc a => cacheSet cc a 1) c

/-- `loadAccounts` (inject.go lines 123-151): for each key pair loaded
from the file it performs `p.nonces.Set(addr.String(), 0)`.  `addrs` is
the list of loaded addresses, in file order. -/
def loadAccountsInit (addrs : List Addr) (c : NonceCache) : NonceCache :=
  addrs.foldl (fun cc a => cacheSet cc a 0) c

/-!
The nonce synchronizer (`syncNonces`).
-/

/-- Modelled from the spec: the retry loop
`backoff.Retry(query, backoff.NewExponentialBackOff())` of `syncNonces`
(inject.go lines 190-197).  The `cenkalti/backoff` policy object is a
dependency whose source is not in the repository; per the spec the
exponential backoff has an unbounded retry count, so a query only fails
on a network-level abort.  A trace lists the outcomes the network
produces for the successive attempts (`some v` = the query returned
pending nonce `v`, `none` = the attempt failed); the retry returns the
first success, or fails only when the whole trace is failures (the
network aborted after finitely many attempts). -/
def retryExponential : List (Option Nat) → Option Nat
  | [] => none
  | some v :: _ => some v
  | none :: rest => retryExponential rest

/-- `syncNonces` (inject.go lines 184-205): for each address in the
cache's key snapshot, retry the `GetAccount` query and overwrite the
cached nonce with the returned pending nonce; if the retried query fails,
`log.L().Fatal` terminates the whole process, modelled as `none`.
`traces` gives, per address, the network's outcomes for that address's
successive query attempts. -/
def syncNonces (traces : Addr → List (Option Nat)) :
    List Addr → NonceCache → Option NonceCache
  | [], c => some c
  | a :: rest, c =>
    match retryExponential (traces a) with
    | some v => syncNonces traces rest (overwrite c a v)
    | none => none

/-!
The submission pipeline inside each `inject` unit of work
(inject.go lines 234-268): the send retry, and the optional receipt check.
-/

/-- Log events emitted by one `inject` unit of work.  Logging is the only
observable effect of a failure; none of these is returned as an error. -/
inductive LogEvent
  | injectFailed
  | receiptFetchFailed
  | receiptBadStatus (status : Nat)
  deriving Repr, DecidableEq

/-- Outcome of one phase of the `inject` goroutine: the log events it
emitted, and whether it crashed the process (a nil-pointer dereference in
Go panics). -/
structure PhaseResult where
  logs : List LogEvent
  crashed : Bool
  deriving Repr, DecidableEq

/-- Modelled from the spec: the retry loop
`backoff.Retry(call, backoff.WithMaxRetries(backoff.NewConstantBackOff(retryInterval), retryNum))`
(inject.go lines 243-247).  The `cenkalti/backoff` policy object is a
dependency whose source is not in the repository; per the spec it waits a
constant interval between attempts and gives up after `retryNum` retries,
i.e. after `retryNum + 1` attempts in total.  `attempt k` tells whether
the `k`-th attempt succeeds; the result is the index of the first
successful attempt, or `none` once the attempts are exhausted. -/
def retryWithMax (retryNum : Nat) (attempt : Nat → Bool) : Option Nat :=
  (List.range (retryNum + 1)).find? attempt

/-- The send phase of `inject` (lines 242-249): retry `caller.Call` with
the constant-interval bounded backoff; on exhausted retries log
`Failed to inject.` and drop the action.  The result type has no error
component: nothing is surfaced to the dispatch engine or pacing loop. -/
def submitAction (retryNum : Nat) (attempt : Nat → Bool) : PhaseResult :=
  match retryWithMax retryNum attempt with
  | some _ => { logs := [], crashed := false }
  | none => { logs := [LogEvent.injectFailed], crashed := false }

/-- The receipt response as dereferenced by the code:
`response.ReceiptInfo.Receipt.Status`. -/
structure GetReceiptResponse where
  status : Nat
  deriving Repr, DecidableEq

/-- The receipt-check phase of `inject` when `checkReceipt` is enabled
(lines 253-265).  `pollResult` is the outcome of the bounded retry around
`c.GetReceipt(actionHash).Call`: `some r` when some attempt returned a
receipt, `none` when every attempt failed, leaving the `response` pointer
nil.  On failure the code logs `Failed to get receipt.` and then
unconditionally evaluates `response.ReceiptInfo.Receipt.Status`, a nil
dereference that panics; on success it compares the status against 1 and
logs `Receipt has failed status.` if it differs. -/
def receiptCheckPhase (pollResult : Option GetReceiptResponse) : PhaseResult :=
  match pollResult with
  | some r =>
    { logs := if r.status ≠ 1 then [LogEvent.receiptBadStatus r.status] else []
      crashed := false }
  | none =>
    { logs := [LogEvent.receiptFetchFailed], crashed := true }

/-!
The pacing loop of `injectProcess` (inject.go lines 207-232).
-/

/-- The inter-token interval computed by `injectProcess` (line 217):
`uint64(time.Second.Nanoseconds() / int64(injectCfg.aps))`, i.e. the
integer division of 10^9 nanoseconds by the target actions-per-second. -/
def interval (aps : Nat) : Nat := 1000000000 / aps

/-- State of the pacing loop: the current clock (`time.Now()` relative to
the `began` baseline, in nanoseconds), the dispatch counter `count`, and
the number of worker goroutines in the pool. -/
structure PacerState where
  now : Nat
  count : Nat
  pool : Nat
  deriving Repr, DecidableEq

/-- One iteration of the pacing loop (lines 219-231): compute
`next = began + count*interval`, `time.Sleep(next.Sub(now))` — Go's
`Sleep` returns immediately on a non-positive duration, so the clock
advances to `max now next`, never backwards — then a non-blocking
`select`: if a worker is blocked on the `ticks` channel (`ready`), hand
the token over and increment `count`; otherwise the `default` branch
spawns one additional `inject` worker and leaves `count` unchanged (the
handoff is not re-attempted this cycle). -/
def pacerStep (I : Nat) (ready : Bool) (s : PacerState) : PacerState :=
  let next := s.count * I
  let now2 := max s.now next
  if ready then { now := now2, count := s.count + 1, pool := s.pool }
  else { now := now2, count := s.count, pool := s.pool + 1 }

/-- The pacing loop run for `n` iterations against an always-ready worker
pool, starting from pool size `w` (the `workers` config) at baseline
time 0. -/
def pacerRunReady (w I : Nat) : Nat → PacerState
  | 0 => { now := 0, count := 0, pool := w }
  | n + 1 => pacerStep I true (pacerRunReady w I n)

/-- The number of dispatch times `n * I` falling strictly before `D`
nanoseconds: the ceiling `⌈D / I⌉`, written with the usual
`(D + I - 1) / I` formula. -/
def tokensWithin (I D : Nat) : Nat := (D + I - 1) / I

/-!
Action-type selection (`pickAction`, inject.go lines 270-284).
-/

/-- The two kinds of action the injector can build. -/
inductive ActionKind
  | transfer
  | execution
  deriving Repr, DecidableEq

/-- `pickAction` (inject.go lines 270-284): dispatch on the configured
`actionType` string.  `coin` models the result of `rand.Intn(2)` in the
`mixed` branch, so it ranges over `{0, 1}`; the branch picks a transfer
when the coin is 0 and an execution otherwise.  Both `transferCaller` and
`executionCaller` end in `return caller, nil`, so every branch returns
`Except.ok`. -/
def pickAction (actionType : String) (coin : Nat) : Except String ActionKind :=
  match actionType with
  | "transfer" => Except.ok ActionKind.transfer
  | "execution" => Except.ok ActionKind.execution
  | "mixed" =>
    if coin = 0 then Except.ok ActionKind.transfer
    else Except.ok ActionKind.execution
  | _ => Except.ok ActionKind.transfer

end Inject

namespace Inject

/-- After `randAccountsInit`, every generated address maps to 1, and
addresses not touched keep their prior value. -/
theorem randAccountsInit_apply (addrs : List Addr) (c : NonceCache) (x : Addr) :
    randAccountsInit addrs c x = if x ∈ addrs then some 1 else c x := by
  induction addrs generalizing c with
  | nil => simp [randAccountsInit]
  | cons a rest ih =>
    simp only [randAccountsInit, List.foldl_cons] at *
    rw [ih]
    by_cases hx : x ∈ rest <;> by_cases hxa : x = a <;>
      simp [hx, hxa, cacheSet]

/-- After `loadAccountsInit`, every loaded address maps to 0, and
addresses not touched keep their prior value. -/
theorem loadAccountsInit_apply (addrs : List Addr) (c : NonceCache) (x : Addr) :
    loadAccountsInit addrs c x = if x ∈ addrs then some 0 else c x := by
  induction addrs generalizing c with
  | nil => simp [loadAccountsInit]
  | cons a rest ih =>
    simp only [loadAccountsInit, List.foldl_cons] at *
    rw [ih]
    by_cases hx : x ∈ rest <;> by_cases hxa : x = a <;>
      simp [hx, hxa, cacheSet]

/-- The dispatch counter after `n` always-ready iterations is `n`. -/
theorem pacerRunReady_count (w I n : Nat) : (pacerRunReady w I n).count = n := by
  induction n with
  | zero => rfl
  | succ m ih => simp [pacerRunReady, pacerStep, ih]

/-- After `n + 1` always-ready iterations the clock sits at `n * I`: token
`n` was handed off at its ideal time `baseline + n * interval`. -/
theorem pacerRunReady_now (w I n : Nat) :
    (pacerRunReady w I (n + 1)).now = n * I := by
  induction n with
  | zero => simp [pacerRunReady, pacerStep]
  | succ m ih =>
    have hc := pacerRunReady_count w I (m + 1)
    have hle : m * I ≤ (m + 1) * I := Nat.mul_le_mul_right I (Nat.le_succ m)
    show (pacerStep I true (pacerRunReady w I (m + 1))).now = (m + 1) * I
    simp [pacerStep, hc, ih, max_eq_right hle]

/-- `k * I < D` exactly when `k` is below the ceiling `⌈D / I⌉`. -/
theorem lt_tokensWithin_iff (I D k : Nat) (hI : 0 < I) :
    k * I < D ↔ k < tokensWithin I D := by
  unfold tokensWithin
  constructor
  · intro h
    have hmul : (k + 1) * I = k * I + I := by ring
    have h2 : (k + 1) * I ≤ D + I - 1 := by omega
    exact (Nat.le_div_iff_mul_le hI).mpr h2
  · intro h
    have h2 : (k + 1) * I ≤ D + I - 1 := (Nat.le_div_iff_mul_le hI).mp h
    have hmul : (k + 1) * I = k * I + I := by ring
    omega

/-- Claim C1 (code evaluated at the failing input): the allocation in
`transferCaller` / `executionCaller` is a separate `Get` followed by a
`Set`, not an atomic get-and-increment.  With address `A` cached at 5 and
two concurrent callers interleaved as Get,Get,Set,Set, both callers
obtain nonce 5 (a duplicate) and the cache ends at 6 — not the distinct
contiguous run 5,6 with the cache at 7 that the claim requires. -/
theorem c1_get_set_race_duplicates :
    c1Result.fst.map AllocCaller.localNonce = [5, 5] ∧
    c1Result.snd "A" = some 6 := by
  constructor <;> decide

/-- Claim C3: `overwrite(A, v)` followed immediately (with no interleaved
operation) by one allocation for `A` returns exactly `v` as the allocated
nonce and leaves the cached value for `A` at `v + 1`. -/
theorem c3_overwrite_then_allocate (c : NonceCache) (a : Addr) (v : Nat) :
    (allocate (overwrite c a v) a).fst = v ∧
    (allocate (overwrite c a v) a).snd a = some (v + 1) := by
  refine ⟨?_, ?_⟩ <;>
    simp [allocate, overwrite, allocGet, allocSet, cacheSet]

/-- Claim C7: at initialization, the nonce cache entry for every randomly
generated account is set to 1 (`randAccounts`) and the entry for every
account loaded from the key-pair file is set to 0 (`loadAccounts`). -/
theorem c7_init_nonces (gen loaded : List Addr) (c : NonceCache) (x y : Addr)
    (hx : x ∈ gen) (hy : y ∈ loaded) :
    randAccountsInit gen c x = some 1 ∧
    loadAccountsInit loaded (randAccountsInit gen c) y = some 0 := by
  constructor
  · rw [randAccountsInit_apply]; simp [hx]
  · rw [loadAccountsInit_apply]; simp [hy]

/-- Witness for C7 at a concrete input. -/
theorem c7_init_nonces_witness :
    randAccountsInit ["g1", "g2"] (fun _ => none) "g2" = some 1 ∧
    loadAccountsInit ["l1"] (randAccountsInit ["g1", "g2"] (fun _ => none)) "l1"
      = some 0 :=
  c7_init_nonces ["g1", "g2"] ["l1"] (fun _ => none) "g2" "l1"
    (by decide) (by decide)

/-- Claim C4: in `syncNonces`, each per-address query is retried with an
unbounded retry count — any finite number of transient failures before a
success is recovered (first conjunct) — and a persistent failure of any
address's retried query is fatal: `syncNonces` stops the whole process
(second conjunct), rather than continuing with the remaining addresses. -/
theorem c4_sync_retry_fatal (k v : Nat) (tail : List (Option Nat))
    (traces : Addr → List (Option Nat)) (addrs : List Addr) (c : NonceCache)
    (a : Addr) (ha : a ∈ addrs) (hfail : retryExponential (traces a) = none) :
    retryExponential (List.replicate k none ++ some v :: tail) = some v ∧
    syncNonces traces addrs c = none := by
  constructor
  · induction k with
    | zero => simp [retryExponential]
    | succ n ih => simpa [retryExponential] using ih
  · induction addrs generalizing c with
    | nil => cases ha
    | cons b rest ih =>
      rcases List.mem_cons.mp ha with hb | hb
      · subst hb
        simp [syncNonces, hfail]
      · simp only [syncNonces]
        cases h : retryExponential (traces b) with
        | none => rfl
        | some w => exact ih (overwrite c b w) hb

/-- Witness for C4 at a concrete input: two transient failures before a
success are recovered, and an address whose whole trace fails aborts the
sync fatally. -/
theorem c4_sync_retry_fatal_witness :
    retryExponential (List.replicate 2 none ++ some 7 :: []) = some 7 ∧
    syncNonces (fun _ => [none, none]) ["A"] (fun _ => none) = none :=
  c4_sync_retry_fatal 2 7 [] (fun _ => [none, none]) ["A"] (fun _ => none) "A"
    (by decide) (by rfl)

/-- Claim C2 (code evaluated at the failing input): when the receipt
poll's bounded retries are exhausted (`pollResult = none`), the code does
log the failure, but it then dereferences the nil `response` pointer and
crashes (`crashed = true`), instead of only logging and abandoning the
action.  When a receipt is obtained, the status is compared against 1 as
the claim says: status 0 logs a failure, status 1 logs nothing. -/
theorem c2_receipt_exhausted_crashes :
    receiptCheckPhase none
      = { logs := [LogEvent.receiptFetchFailed], crashed := true } ∧
    receiptCheckPhase (some ⟨0⟩)
      = { logs := [LogEvent.receiptBadStatus 0], crashed := false } ∧
    receiptCheckPhase (some ⟨1⟩) = { logs := [], crashed := false } := by
  refine ⟨rfl, ?_, rfl⟩
  simp [receiptCheckPhase]

/-- Claim C8: the send is retried at most `retryNum` times beyond the
first attempt (a success is always at an attempt index `≤ retryNum`, and
is the first success); when all `retryNum + 1` attempts fail, the action
is dropped with exactly one logged failure, no crash, and no error
surfaced — `submitAction`'s result carries no error component at all. -/
theorem c8_submit_bounded_retry (retryNum : Nat) (attempt : Nat → Bool) :
    (∀ k, retryWithMax retryNum attempt = some k →
      k ≤ retryNum ∧ attempt k = true) ∧
    ((∀ k, k ≤ retryNum → attempt k = false) →
      submitAction retryNum attempt
        = { logs := [LogEvent.injectFailed], crashed := false }) := by
  constructor
  · intro k hk
    refine ⟨?_, List.find?_some hk⟩
    have hmem := List.mem_of_find?_eq_some hk
    have := List.mem_range.mp hmem
    omega
  · intro hall
    have hnone : retryWithMax retryNum attempt = none := by
      apply List.find?_eq_none.mpr
      intro x hx
      have hxle : x ≤ retryNum := by
        have := List.mem_range.mp hx
        omega
      simp [hall x hxle]
    simp [submitAction, hnone]

/-- Witness for C8 at a concrete input: with `retryNum = 2` and every
attempt failing, the result is one logged failure and nothing else. -/
theorem c8_submit_bounded_retry_witness :
    submitAction 2 (fun _ => false)
      = { logs := [LogEvent.injectFailed], crashed := false } :=
  (c8_submit_bounded_retry 2 (fun _ => false)).2 (fun _ _ => rfl)

/-- Claim C9: action-type selection follows the configured policy: policy
`transfer` always builds a transfer, policy `execution` always builds an
execution, and policy `mixed` builds a transfer exactly when the
`rand.Intn(2)` coin is 0 and an execution exactly when it is 1 — one of
the two equally likely coin outcomes each, i.e. 50/50. -/
theorem c9_pick_action_policy (coin : Nat) :
    pickAction "transfer" coin = Except.ok ActionKind.transfer ∧
    pickAction "execution" coin = Except.ok ActionKind.execution ∧
    pickAction "mixed" 0 = Except.ok ActionKind.transfer ∧
    pickAction "mixed" 1 = Except.ok ActionKind.execution :=
  ⟨rfl, rfl, rfl, rfl⟩

/-- Claim C10: every configured action-type string outside
`{transfer, execution, mixed}` falls back to building a transfer and
returns successfully (`Except.ok`, never an error). -/
theorem c10_pick_action_default (s : String) (coin : Nat)
    (h1 : s ≠ "transfer") (h2 : s ≠ "execution") (h3 : s ≠ "mixed") :
    pickAction s coin = Except.ok ActionKind.transfer := by
  unfold pickAction
  split
  · rfl
  · exact absurd rfl h2
  · exact absurd rfl h3
  · rfl

/-- Witness for C10 at a concrete input. -/
theorem c10_pick_action_default_witness :
    pickAction "foo" 0 = Except.ok ActionKind.transfer :=
  c10_pick_action_default "foo" 0 (by decide) (by decide) (by decide)

/-- Claim C5: with interval `I = 10^9 / R` and an always-ready worker
pool, dispatch `n` happens at ideal time `baseline + n * I` (first two
conjuncts); the clock never moves backwards, i.e. `Sleep` never sleeps a
negative duration (third conjunct); token `k` is issued strictly before
`D` nanoseconds exactly when `k < tokensWithin I D` (fourth conjunct), so
`tokensWithin I D` tokens are issued during a run of `D` nanoseconds; and
when the configured rate `R` divides 10^9 that count is within one token
of `R * D / 10^9` (last two conjuncts, stated multiplied through by
10^9). -/
theorem c5_pacing_accuracy (w R D k n : Nat) (hR : 0 < R)
    (hdvd : R ∣ 1000000000) :
    (pacerRunReady w (interval R) (n + 1)).count = n + 1 ∧
    (pacerRunReady w (interval R) (n + 1)).now = n * interval R ∧
    (pacerRunReady w (interval R) n).now ≤
      (pacerRunReady w (interval R) (n + 1)).now ∧
    ((pacerRunReady w (interval R) (k + 1)).now < D ↔
      k < tokensWithin (interval R) D) ∧
    R * D ≤ 1000000000 * tokensWithin (interval R) D ∧
    1000000000 * tokensWithin (interval R) D < R * D + 1000000000 := by
  have hIR : interval R * R = 1000000000 := Nat.div_mul_cancel hdvd
  have hI : 0 < interval R := by
    rcases Nat.eq_zero_or_pos (interval R) with h0 | h
    · rw [h0] at hIR; simp at hIR
    · exact h
  refine ⟨pacerRunReady_count w _ _, pacerRunReady_now w _ _, ?_, ?_, ?_, ?_⟩
  · cases n with
    | zero => simp [pacerRunReady, pacerStep]
    | succ m =>
      rw [pacerRunReady_now, pacerRunReady_now]
      exact Nat.mul_le_mul_right _ (Nat.le_succ m)
  · rw [pacerRunReady_now]
    exact lt_tokensWithin_iff _ D k hI
  · have hDle : D ≤ tokensWithin (interval R) D * interval R := by
      have h := lt_tokensWithin_iff (interval R) D (tokensWithin (interval R) D) hI
      omega
    calc R * D ≤ R * (tokensWithin (interval R) D * interval R) :=
          Nat.mul_le_mul_left R hDle
      _ = 1000000000 * tokensWithin (interval R) D := by
          rw [← hIR]; ring
  · rcases Nat.eq_zero_or_pos (tokensWithin (interval R) D) with h0 | hpos
    · rw [h0]; omega
    · have hs : tokensWithin (interval R) D - 1 < tokensWithin (interval R) D := by
        omega
      have hlt : (tokensWithin (interval R) D - 1) * interval R < D :=
        (lt_tokensWithin_iff (interval R) D _ hI).mpr hs
      have hti : tokensWithin (interval R) D * interval R < D + interval R := by
        have hexp : tokensWithin (interval R) D * interval R
            = (tokensWithin (interval R) D - 1) * interval R + interval R := by
          conv_lhs => rw [← Nat.succ_pred_eq_of_pos hpos]
          rw [Nat.succ_mul, Nat.pred_eq_sub_one]
        omega
      calc 1000000000 * tokensWithin (interval R) D
          = R * (tokensWithin (interval R) D * interval R) := by
            rw [← hIR]; ring
        _ < R * (D + interval R) := by
            exact (Nat.mul_lt_mul_left hR).mpr hti
        _ = R * D + 1000000000 := by rw [← hIR]; ring

/-- Witness for C5 at a concrete input: rate 10 actions per second
(interval 10^8 ns), a 1-second run, token index 3, iteration 0. -/
theorem c5_pacing_accuracy_witness :
    (pacerRunReady 10 (interval 10) 1).count = 1 ∧
    (pacerRunReady 10 (interval 10) 1).now = 0 * interval 10 ∧
    (pacerRunReady 10 (interval 10) 0).now ≤
      (pacerRunReady 10 (interval 10) 1).now ∧
    ((pacerRunReady 10 (interval 10) 4).now < 1000000000 ↔
      3 < tokensWithin (interval 10) 1000000000) ∧
    10 * 1000000000 ≤ 1000000000 * tokensWithin (interval 10) 1000000000 ∧
    1000000000 * tokensWithin (interval 10) 1000000000
      < 10 * 1000000000 + 1000000000 :=
  c5_pacing_accuracy 10 10 1000000000 3 0 (by decide) (by decide)

/-- Claim C6: one pacing-loop iteration with no worker ready grows the
pool by exactly one and leaves the dispatch counter unchanged (the token
is not re-attempted this cycle); with a worker ready, the token is handed
off, the counter advances by one, and the pool is unchanged.  In both
cases the step completes immediately — `pacerStep` is a total function of
the current state, with no blocking branch. -/
theorem c6_spawn_one_worker (I : Nat) (s : PacerState) :
    (pacerStep I false s).pool = s.pool + 1 ∧
    (pacerStep I false s).count = s.count ∧
    (pacerStep I true s).count = s.count + 1 ∧
    (pacerStep I true s).pool = s.pool := by
  refine ⟨?_, ?_, ?_, ?_⟩ <;> simp [pacerStep]

end Inject
